import Mathlib

/-!
# K8s-Anatomy: the instrumented organ services

A shallow embedding of `organs/heart-service/main.go` and
`organs/brain-service/main.go`.  The two handlers, the metric declarations and
`main` are transcribed from the Go sources.  The operations of the Go standard
library and of the Prometheus client they call are represented by small
executable definitions that follow the documented behaviour of those packages.
-/

namespace K8sAnatomy

/-! ## Machine integers and `time.Duration` -/

/-- Two's-complement reduction of a mathematical integer to `int64`. -/
def int64Wrap (x : Int) : Int := (x + 2 ^ 63) % 2 ^ 64 - 2 ^ 63

/-- Smallest `int64`. -/
def minInt64 : Int := -(2 ^ 63)

/-- Largest `int64`. -/
def maxInt64 : Int := 2 ^ 63 - 1

/-- A `time.Duration` is an `int64` count of nanoseconds. -/
abbrev Duration := Int

/-- Constant `time.Nanosecond`. -/
def Nanosecond : Duration := 1

/-- Constant `time.Microsecond`. -/
def Microsecond : Duration := 1000 * Nanosecond

/-- Constant `time.Millisecond`. -/
def Millisecond : Duration := 1000 * Microsecond

/-- Constant `time.Second`. -/
def Second : Duration := 1000 * Millisecond

/-! ## `math/rand` -/

/-- Result of asking a pseudo-random source for a bounded number.  A source is
the list of raw outputs it is still going to produce; `starved` is the run in
which the call keeps rejecting draws and never returns. -/
inductive Drawn where
  | value (v : Int) (rest : List Nat)
  | panicked
  | starved
  deriving DecidableEq, Repr

/-- Largest raw draw that `Int63n n` accepts when `n` is not a power of two:
`int64((1 << 63) - 1 - (1<<63)%uint64(n))`. -/
def int63nMax (n : Nat) : Nat := 2 ^ 63 - 1 - 2 ^ 63 % n

/-- The rejection loop of `Int63n`: `v := r.Int63(); for v > max { v = r.Int63() }; return v % n`.
Every raw output is reduced to the 63 bits `Int63` returns. -/
def int63nLoop (n : Nat) : List Nat → Drawn
  | [] => .starved
  | x :: xs =>
    if x % 2 ^ 63 > int63nMax n then int63nLoop n xs
    else .value (((x % 2 ^ 63) % n : Nat) : Int) xs

/-- Function `rand.Int63n`: a number in `[0, n)` from the source, a panic when `n <= 0`. -/
def Int63n (n : Int) (src : List Nat) : Drawn :=
  if n ≤ 0 then .panicked
  else if n.toNat &&& (n.toNat - 1) = 0 then
    match src with
    | [] => .starved
    | x :: xs => .value (((x % 2 ^ 63) &&& (n.toNat - 1) : Nat) : Int) xs
  else int63nLoop n.toNat src

/-! ## brain-service: the simulated delay -/

/-- Local `minDelay := 50 * time.Millisecond` of `thinkHandler`. -/
def minDelay : Duration := int64Wrap (50 * Millisecond)

/-- Local `maxDelay := 750 * time.Millisecond` of `thinkHandler`. -/
def maxDelay : Duration := int64Wrap (750 * Millisecond)

/-- The argument `int64(maxDelay-minDelay)` handed to `rand.Int63n`. -/
def delayBound : Int := int64Wrap (maxDelay - minDelay)

/-- The statement `delay := minDelay + time.Duration(rand.Int63n(int64(maxDelay-minDelay)))`,
with the `int64` addition of Go. -/
def thinkDelay (src : List Nat) : Drawn :=
  match Int63n delayBound src with
  | .value r rest => .value (int64Wrap (minDelay + r)) rest
  | .panicked => .panicked
  | .starved => .starved

/-! ## `net/http`: the response writer -/

/-- Constant `http.StatusOK`. -/
def StatusOK : Nat := 200

/-- What a handler has sent on its `http.ResponseWriter`: the status line, once
written, and the body bytes so far. -/
structure ResponseWriter where
  status : Option Nat
  body : String
  deriving DecidableEq, Repr

/-- The writer a handler receives: nothing sent yet. -/
def ResponseWriter.fresh : ResponseWriter := ⟨none, ""⟩

/-- Method `WriteHeader`: sends the status line; a second call changes nothing. -/
def ResponseWriter.WriteHeader (w : ResponseWriter) (code : Nat) : ResponseWriter :=
  match w.status with
  | none => { w with status := some code }
  | some _ => w

/-- Method `Write`: sends `StatusOK` first when no status line went out, then appends the bytes. -/
def ResponseWriter.Write (w : ResponseWriter) (b : String) : ResponseWriter :=
  { status := some (w.status.getD StatusOK), body := w.body ++ b }

/-- How one handler invocation ends: it returns, it panics (the server recovers
and the process state stays), or it never returns. -/
inductive Run (σ : Type) where
  | returned (s : σ) (w : ResponseWriter)
  | panicked (s : σ) (w : ResponseWriter)
  | hung

/-- A `defer`red call: it runs on the process state when the surrounding function
exits, by return or by panic. -/
def Run.andDefer {σ : Type} (f : σ → σ) : Run σ → Run σ
  | .returned s w => .returned (f s) w
  | .panicked s w => .panicked (f s) w
  | .hung => .hung

/-! ## The metric instruments -/

/-- Children of a metric vector, keyed by their label values: the entry for `key`,
if there is one. -/
def childOf {β : Type} (key : List String) : List (List String × β) → Option β
  | [] => none
  | (k, b) :: rest => if k = key then some b else childOf key rest

/-- The children with an entry for `key` added, holding `fresh`, unless one exists. -/
def getOrCreate {β : Type} (key : List String) (fresh : β) :
    List (List String × β) → List (List String × β)
  | [] => [(key, fresh)]
  | (k, b) :: rest =>
    if k = key then (k, b) :: rest else (k, b) :: getOrCreate key fresh rest

/-- The children with `f` applied to the entry for `key`. -/
def updateChild {β : Type} (key : List String) (f : β → β) :
    List (List String × β) → List (List String × β)
  | [] => []
  | (k, b) :: rest =>
    if k = key then (k, f b) :: rest else (k, b) :: updateChild key f rest

/-- The value a `prometheus.Labels` map gives to a label name. -/
def labelValue (name : String) : List (String × String) → Option String
  | [] => none
  | (n, v) :: rest => if n = name then some v else labelValue name rest

/-- The label values, in the order of the vector's label names, that a `Labels`
map stands for; `none` when the map has another number of entries or misses a name. -/
def labelValues (names : List String) (labels : List (String × String)) :
    Option (List String) :=
  if labels.length ≠ names.length then none
  else names.mapM (fun n => labelValue n labels)

/-- Modelled from the spec: the Counter instrument of the Metric Registry (the
Prometheus client, not part of the sources): one monotonically increasing
integer per label set. -/
structure CounterVec where
  labelNames : List String
  children : List (List String × Nat)
  deriving DecidableEq, Repr

/-- Modelled from the spec: `register` for a counter, which takes no configuration
(`prometheus.NewCounterVec`): no label set has a value yet. -/
def NewCounterVec (labelNames : List String) : CounterVec := ⟨labelNames, []⟩

/-- Modelled from the spec: the first half of `counter.increment(labels)`
(`CounterVec.With`): the label set is looked up and its entry created with value 0
when absent.  The result is the key of the entry and the vector holding it;
`none` is the panic on labels that do not fit the vector. -/
def CounterVec.With (v : CounterVec) (labels : List (String × String)) :
    Option (List String × CounterVec) :=
  match labelValues v.labelNames labels with
  | none => none
  | some key => some (key, { v with children := getOrCreate key 0 v.children })

/-- Modelled from the spec: the second half of `counter.increment(labels)`
(`Counter.Inc`): adds 1 to the value of the entry. -/
def CounterVec.Inc (v : CounterVec) (key : List String) : CounterVec :=
  { v with children := updateChild key (· + 1) v.children }

/-- The value of the counter for a label set; 0 while the entry does not exist. -/
def CounterVec.value (v : CounterVec) (key : List String) : Nat :=
  (childOf key v.children).getD 0

/-- Modelled from the spec: the Histogram instrument of the Metric Registry (the
Prometheus client, not part of the sources): the ascending bucket upper bounds,
one count per bucket, the running sum and the observation count.  As in the
client, `buckets` holds the observations that fell into each bucket, and the
cumulative counts are formed when the histogram is written out. -/
structure Histogram where
  upperBounds : List ℚ
  buckets : List Nat
  sum : ℚ
  count : Nat
  deriving DecidableEq

/-- A histogram without observations. -/
def newHistogram (upperBounds : List ℚ) : Histogram :=
  ⟨upperBounds, List.replicate upperBounds.length 0, 0, 0⟩

/-- Index of the first upper bound that is at least `v`; the number of bounds when
there is none (the implicit `+Inf` bucket). -/
def findBucket : List ℚ → ℚ → Nat
  | [], _ => 0
  | b :: bs, v => if v ≤ b then 0 else findBucket bs v + 1

/-- Adds 1 at position `i` of a list of counts; no change when `i` is out of range. -/
def incAt : Nat → List Nat → List Nat
  | _, [] => []
  | 0, c :: cs => (c + 1) :: cs
  | i + 1, c :: cs => c :: incAt i cs

/-- Modelled from the spec: `histogram.observe` on one label set
(`Histogram.Observe`): the observation is counted in the first bucket whose bound
is at least the value, added to the sum, and counted. -/
def Histogram.Observe (h : Histogram) (v : ℚ) : Histogram :=
  { h with
    buckets := incAt (findBucket h.upperBounds v) h.buckets
    sum := h.sum + v
    count := h.count + 1 }

/-- Running totals of a list of counts, starting from `acc`. -/
def cumulate (acc : Nat) : List Nat → List Nat
  | [] => []
  | c :: cs => (acc + c) :: cumulate (acc + c) cs

/-- The cumulative bucket counts a histogram reports, one per upper bound. -/
def Histogram.cumulativeCounts (h : Histogram) : List Nat := cumulate 0 h.buckets

/-- The cumulative count reported for the bucket at position `i`. -/
def Histogram.cumulativeCount (h : Histogram) (i : Nat) : Nat :=
  h.cumulativeCounts.getD i 0

/-- Modelled from the spec: the rejection `histogram.observe` is specified with. -/
inductive ObservationError where
  | invalidObservation
  deriving DecidableEq, Repr

/-- Modelled from the spec: `histogram.observe` with its input check: a negative
value fails with `InvalidObservationError`, any other value is observed. -/
def observeChecked (h : Histogram) (v : ℚ) : Except ObservationError Histogram :=
  if v < 0 then .error .invalidObservation else .ok (h.Observe v)

/-- The histogram after a sequence of observations, oldest first. -/
def Histogram.observeAll (h : Histogram) (obs : List ℚ) : Histogram :=
  obs.foldl Histogram.Observe h

/-- Modelled from the spec: a histogram per label set (`prometheus.HistogramVec`),
all with the bucket bounds given at registration. -/
structure HistogramVec where
  labelNames : List String
  upperBounds : List ℚ
  children : List (List String × Histogram)
  deriving DecidableEq

/-- Modelled from the spec: `register` for a histogram, configured with its bucket
bounds (`prometheus.NewHistogramVec`). -/
def NewHistogramVec (upperBounds : List ℚ) (labelNames : List String) : HistogramVec :=
  ⟨labelNames, upperBounds, []⟩

/-- Modelled from the spec: the lookup of the label set that precedes an
observation (`HistogramVec.WithLabelValues`): the entry is created empty when
absent; `none` is the panic on a wrong number of label values. -/
def HistogramVec.WithLabelValues (v : HistogramVec) (lvs : List String) :
    Option (List String × HistogramVec) :=
  if lvs.length ≠ v.labelNames.length then none
  else some (lvs, { v with children := getOrCreate lvs (newHistogram v.upperBounds) v.children })

/-- The observation of `x` by the child histogram for `key`. -/
def HistogramVec.Observe (v : HistogramVec) (key : List String) (x : ℚ) : HistogramVec :=
  { v with children := updateChild key (fun h => h.Observe x) v.children }

/-- The `_count` of the histogram for a label set; 0 while the entry does not exist. -/
def HistogramVec.count (v : HistogramVec) (key : List String) : Nat :=
  ((childOf key v.children).map Histogram.count).getD 0

/-- The `_sum` of the histogram for a label set; 0 while the entry does not exist. -/
def HistogramVec.sum (v : HistogramVec) (key : List String) : ℚ :=
  ((childOf key v.children).map Histogram.sum).getD 0

/-! ## The exposition -/

/-- One sample of the exposition; `le = none` is the `+Inf` bucket.  The
exposition is kept as the list of its samples, the text grammar being that of
the exposition standard. -/
inductive Line where
  | counter (name : String) (labels : List (String × String)) (value : Nat)
  | gauge (name : String) (value : Int)
  | bucket (name : String) (labels : List (String × String)) (le : Option ℚ) (cumulative : Nat)
  | sum (name : String) (labels : List (String × String)) (value : ℚ)
  | count (name : String) (labels : List (String × String)) (value : Nat)
  deriving DecidableEq

/-- The samples of a counter vector: one per label set. -/
def CounterVec.collect (name : String) (v : CounterVec) : List Line :=
  v.children.map (fun c => Line.counter name (v.labelNames.zip c.1) c.2)

/-- The samples of one histogram: its cumulative buckets, the `+Inf` bucket, `_sum`
and `_count`. -/
def Histogram.collect (name : String) (labels : List (String × String)) (h : Histogram) :
    List Line :=
  (h.upperBounds.zip h.cumulativeCounts).map
      (fun bc => Line.bucket name labels (some bc.1) bc.2)
    ++ [Line.bucket name labels none h.count, Line.sum name labels h.sum,
        Line.count name labels h.count]

/-- The samples of a histogram vector: those of each label set in turn. -/
def HistogramVec.collect (name : String) (v : HistogramVec) : List Line :=
  v.children.flatMap (fun c => c.2.collect name (v.labelNames.zip c.1))

/-- The two instruments with which `promhttp.Handler()` instruments the handler it
returns (`InstrumentMetricHandler` on the default registerer):
`promhttp_metric_handler_requests_total`, by status code, and
`promhttp_metric_handler_requests_in_flight`. -/
structure MetricHandler where
  requestsTotal : CounterVec
  inFlight : Int
  deriving DecidableEq

/-- Function `promhttp.InstrumentMetricHandler`: the scrape counter is created with
the label sets of the likely status codes, the gauge at 0, and both are
registered. -/
def InstrumentMetricHandler : MetricHandler :=
  { requestsTotal :=
      { labelNames := ["code"], children := [(["200"], 0), (["500"], 0), (["503"], 0)] }
    inFlight := 0 }

/-- The samples of the handler instrumentation, families in name order. -/
def MetricHandler.collect (m : MetricHandler) : List Line :=
  Line.gauge "promhttp_metric_handler_requests_in_flight" m.inFlight
    :: m.requestsTotal.collect "promhttp_metric_handler_requests_total"

/-- The instrumented serving of one scrape by the handler `promhttp.Handler()`
returns: `InstrumentHandlerInFlight` raises the gauge, the inner handler gathers
the registry (`gather`, on the state with the gauge raised), the deferred decrement
lowers the gauge, and `InstrumentHandlerCounter` then counts the request under
its status code. -/
def MetricHandler.serve (m : MetricHandler) (gather : MetricHandler → List Line) :
    MetricHandler × Nat × List Line :=
  let m1 := { m with inFlight := m.inFlight + 1 }
  let body := gather m1
  let m2 := { m1 with inFlight := m1.inFlight - 1 }
  let m3 :=
    match m2.requestsTotal.With [("code", "200")] with
    | none => m2
    | some (child, vec) => { m2 with requestsTotal := vec.Inc child }
  (m3, StatusOK, body)

/-! ## heart-service -/

/-- Package variable `httpRequestsTotal` of heart-service, as declared. -/
def httpRequestsTotal : CounterVec := NewCounterVec ["service"]

/-- State of the heart-service process: its counter and the instrumentation of
its `/metrics` handler, both registered in the default registry. -/
structure Heart where
  httpRequestsTotal : CounterVec
  scrapes : MetricHandler
  deriving DecidableEq

/-- Function `main` of heart-service up to `ListenAndServe`: the state in which the
process starts to serve, the counter registered by `init` and `/metrics` handled
by `promhttp.Handler()`. -/
def Heart.main : Heart :=
  { httpRequestsTotal := K8sAnatomy.httpRequestsTotal, scrapes := InstrumentMetricHandler }

/-- Function `beatHandler`. -/
def beatHandler (w : ResponseWriter) (p : Heart) : Run Heart :=
  match p.httpRequestsTotal.With [("service", "heart-service")] with
  | none => .panicked p w
  | some (child, vec) =>
    let p1 := { p with httpRequestsTotal := vec.Inc child }
    let w1 := w.WriteHeader StatusOK
    let w2 := w1.Write "lub-dub"
    .returned p1 w2

/-- Sequential requests to `/beat`, each on a fresh writer: the final state and the
responses in order, or `none` when an invocation does not return. -/
def beats : Nat → Heart → Option (Heart × List ResponseWriter)
  | 0, p => some (p, [])
  | n + 1, p =>
    match beatHandler ResponseWriter.fresh p with
    | .returned p1 w =>
      match beats n p1 with
      | some (q, ws) => some (q, w :: ws)
      | none => none
    | .panicked _ _ => none
    | .hung => none

/-- What the default gatherer reports for heart-service. -/
def Heart.gather (p : Heart) : List Line :=
  p.httpRequestsTotal.collect "http_requests_total" ++ p.scrapes.collect

/-- The `/metrics` handler of heart-service: the new state, the status and the body. -/
def Heart.metricsHandler (p : Heart) : Heart × Nat × List Line :=
  let r := p.scrapes.serve (fun m => Heart.gather { p with scrapes := m })
  ({ p with scrapes := r.1 }, r.2)

/-! ## heart-service under concurrent requests -/

/-- One invocation of `beatHandler` in flight.  `pc` counts the statements it has
completed: 0 none, 1 `With`, 2 `Inc`, 3 `WriteHeader`, 4 `Write`, after which it has
returned; 5 is the panic of `With`.  `child` is the counter that `With` returned
and `w` the writer of this request. -/
structure BeatTask where
  pc : Nat
  child : List String
  w : ResponseWriter
  deriving DecidableEq, Repr

/-- An invocation that has just been dispatched on the writer `w`. -/
def BeatTask.start (w : ResponseWriter) : BeatTask := ⟨0, [], w⟩

/-- The next statement of an invocation of `beatHandler`, as one indivisible step
on the shared state.  The lookup `With` and the increment `Inc` each act on the
counter atomically, as the specification has it (`counter.increment` "atomically
adds 1"); `WriteHeader` and `Write` touch the writer of the request only.  An
invocation that has returned or panicked does nothing. -/
def beatStep (t : BeatTask) (p : Heart) : BeatTask × Heart :=
  match t.pc with
  | 0 =>
    match p.httpRequestsTotal.With [("service", "heart-service")] with
    | none => ({ t with pc := 5 }, p)
    | some (child, vec) => ({ t with pc := 1, child := child }, { p with httpRequestsTotal := vec })
  | 1 => ({ t with pc := 2 }, { p with httpRequestsTotal := p.httpRequestsTotal.Inc t.child })
  | 2 => ({ t with pc := 3, w := t.w.WriteHeader StatusOK }, p)
  | 3 => ({ t with pc := 4, w := t.w.Write "lub-dub" }, p)
  | _ => (t, p)

/-- The scheduler lets invocation number `i` take its next step; no invocation
moves when there is no such number. -/
def stepAt : Nat → List BeatTask → Heart → List BeatTask × Heart
  | _, [], p => ([], p)
  | 0, t :: ts, p => ((beatStep t p).1 :: ts, (beatStep t p).2)
  | i + 1, t :: ts, p => (t :: (stepAt i ts p).1, (stepAt i ts p).2)

/-- An interleaving: the invocations take their steps in the order the schedule
names them. -/
def runSchedule : List Nat → List BeatTask → Heart → List BeatTask × Heart
  | [], ts, p => (ts, p)
  | i :: rest, ts, p => runSchedule rest (stepAt i ts p).1 (stepAt i ts p).2

/-- The requests `n` concurrent clients send to a heart-service that has just
started, each on a fresh writer, run under the schedule `sched`. -/
def concurrentBeats (n : Nat) (sched : List Nat) : List BeatTask × Heart :=
  runSchedule sched (List.replicate n (BeatTask.start ResponseWriter.fresh)) Heart.main

/-- What holds of every invocation in flight: it has not panicked, it holds the
counter of `heart-service` once it has looked it up, and its writer shows what
the statements completed so far have sent. -/
def BeatTask.ok (t : BeatTask) : Prop :=
  t.pc ≤ 4 ∧ (1 ≤ t.pc → t.child = ["heart-service"]) ∧
    t.w = (if t.pc ≤ 2 then ResponseWriter.fresh
           else if t.pc = 3 then ⟨some 200, ""⟩ else ⟨some 200, "lub-dub"⟩)

/-- What holds of heart-service and its invocations in flight at every moment: the
counter has its declared label, every invocation is in order, the entry of
`heart-service` exists once an invocation has looked it up, and the counter
value is the number of invocations that have completed their `Inc`. -/
def beatsInvariant (ts : List BeatTask) (p : Heart) : Prop :=
  p.httpRequestsTotal.labelNames = ["service"]
    ∧ (∀ t ∈ ts, t.ok)
    ∧ ((∃ t ∈ ts, 1 ≤ t.pc) →
        (childOf ["heart-service"] p.httpRequestsTotal.children).isSome = true)
    ∧ p.httpRequestsTotal.value ["heart-service"]
        = ts.countP (fun t => decide (2 ≤ t.pc))

/-! ## brain-service -/

/-- Package variable `httpRequestDuration` of brain-service, as declared: buckets
`0.05, 0.1, 0.25, 0.5, 0.75, 1.0` and the label `service`. -/
def httpRequestDuration : HistogramVec :=
  NewHistogramVec [1 / 20, 1 / 10, 1 / 4, 1 / 2, 3 / 4, 1] ["service"]

/-- State of the brain-service process: its histogram and the instrumentation of
its `/metrics` handler, the monotonic clock reading in nanoseconds, and the
default source of `math/rand`, which the top-level functions of that package read. -/
structure Brain where
  httpRequestDuration : HistogramVec
  scrapes : MetricHandler
  clock : Int
  globalRand : List Nat

/-- Function `time.Since` on monotonic readings: the difference, saturated to the
range of `Duration`. -/
def Since (begin now : Int) : Duration := max minInt64 (min maxInt64 (now - begin))

/-- Method `Duration.Seconds`: `sec := d / Second; nsec := d % Second`, then
`sec + nsec/1e9`, taken as the exact number. -/
def Seconds (d : Duration) : ℚ :=
  ((Int.tdiv d Second : Int) : ℚ) + ((Int.tmod d Second : Int) : ℚ) / 1000000000

/-- Function `time.Sleep`: the goroutine pauses for at least `d`, here `lateness`
nanoseconds longer; a negative or zero `d` returns at once. -/
def Sleep (d : Duration) (lateness : Nat) (p : Brain) : Brain :=
  { p with clock := p.clock + max d 0 + lateness }

/-- A `prometheus.Timer`: the start reading and the label set of the observer. -/
structure Timer where
  begin : Int
  observer : List String

/-- Function `prometheus.NewTimer`: `begin` is `time.Now()`. -/
def NewTimer (observer : List String) (p : Brain) : Timer :=
  { begin := p.clock, observer := observer }

/-- Method `Timer.ObserveDuration`: `d := time.Since(t.begin)`, then
`t.observer.Observe(d.Seconds())`. -/
def Timer.ObserveDuration (t : Timer) (p : Brain) : Brain :=
  { p with
    httpRequestDuration :=
      p.httpRequestDuration.Observe t.observer (Seconds (Since t.begin p.clock)) }

/-- The statements of `thinkHandler` after the `defer`. -/
def thinkBody (w : ResponseWriter) (lateness : Nat) (p : Brain) : Run Brain :=
  match thinkDelay p.globalRand with
  | .panicked => .panicked p w
  | .starved => .hung
  | .value delay rest =>
    let p1 := Sleep delay lateness { p with globalRand := rest }
    let w1 := w.WriteHeader StatusOK
    let w2 := w1.Write "thought processed"
    .returned p1 w2

/-- Function `thinkHandler`; `lateness` is how long the sleep overshoots. -/
def thinkHandler (w : ResponseWriter) (lateness : Nat) (p : Brain) : Run Brain :=
  match p.httpRequestDuration.WithLabelValues ["brain-service"] with
  | none => .panicked p w
  | some (observer, vec) =>
    let p1 := { p with httpRequestDuration := vec }
    let timer := NewTimer observer p1
    (thinkBody w lateness p1).andDefer timer.ObserveDuration

/-- Function `main` of brain-service up to `ListenAndServe`: the state in which the
process starts to serve.  `newSource` is `rand.NewSource`, `seed` the value of
`time.Now().UnixNano()`; `clock` and `defaultSource` are the clock reading and the
state of the default source of `math/rand` as the runtime set them up.  The
generator of the first statement, `rand.New(rand.NewSource(seed))`, is built and
not kept. -/
def Brain.main (newSource : Int → List Nat) (seed : Int) (clock : Int)
    (defaultSource : List Nat) : Brain :=
  let _seeded : List Nat := newSource seed
  { httpRequestDuration := K8sAnatomy.httpRequestDuration
    scrapes := InstrumentMetricHandler
    clock := clock
    globalRand := defaultSource }

/-- What the default gatherer reports for brain-service. -/
def Brain.gather (p : Brain) : List Line :=
  p.httpRequestDuration.collect "http_request_duration_seconds" ++ p.scrapes.collect

/-- The `/metrics` handler of brain-service: the new state, the status and the body. -/
def Brain.metricsHandler (p : Brain) : Brain × Nat × List Line :=
  let r := p.scrapes.serve (fun m => Brain.gather { p with scrapes := m })
  ({ p with scrapes := r.1 }, r.2)

/-! ## Facts about the delay -/

theorem minDelay_eq : minDelay = 50000000 := by decide

theorem maxDelay_eq : maxDelay = 750000000 := by decide

theorem delayBound_eq : delayBound = 700000000 := by decide

theorem int63nMax_delayBound : int63nMax 700000000 = 9223372036199999999 := by decide

theorem Int63n_delayBound (src : List Nat) :
    Int63n delayBound src = int63nLoop 700000000 src := by
  rw [delayBound_eq]
  unfold Int63n
  rw [if_neg (by decide), if_neg (by decide)]
  rfl

/-- Whatever the loop returns lies in `[0, n)`. -/
theorem int63nLoop_value_lt (n : Nat) (hn : 0 < n) (src : List Nat) (r : Int) (rest : List Nat)
    (h : int63nLoop n src = .value r rest) : 0 ≤ r ∧ r < n := by
  induction src with
  | nil => simp [int63nLoop] at h
  | cons x xs ih =>
    unfold int63nLoop at h
    split at h
    · exact ih h
    · injection h with h1 _
      subst h1
      exact ⟨Int.ofNat_nonneg _, by exact_mod_cast Nat.mod_lt _ hn⟩

/-- The loop never panics. -/
theorem int63nLoop_ne_panicked (n : Nat) (src : List Nat) : int63nLoop n src ≠ .panicked := by
  induction src with
  | nil => simp [int63nLoop]
  | cons x xs ih =>
    unfold int63nLoop
    split
    · exact ih
    · simp

/-- A single acceptable raw draw is returned at once. -/
theorem int63nLoop_singleton (n r : Nat) (hr : r < n) (hmax : r ≤ int63nMax n) (h63 : r < 2 ^ 63) :
    int63nLoop n [r] = .value (r : Int) [] := by
  unfold int63nLoop
  rw [Nat.mod_eq_of_lt h63, if_neg (by omega), Nat.mod_eq_of_lt hr]

/-- An integer in the `int64` range is its own reduction. -/
theorem int64Wrap_of_range (x : Int) (hlo : -(2 ^ 63) ≤ x) (hhi : x < 2 ^ 63) :
    int64Wrap x = x := by
  unfold int64Wrap
  norm_num at hlo hhi ⊢
  omega

/-- The delay statement in closed form: 50 ms plus the accepted draw modulo 700 ms. -/
theorem thinkDelay_eq (src : List Nat) :
    thinkDelay src =
      match int63nLoop 700000000 src with
      | .value r rest => .value (int64Wrap (50000000 + r)) rest
      | .panicked => .panicked
      | .starved => .starved := by
  unfold thinkDelay
  rw [Int63n_delayBound, minDelay_eq]

/-- Every delay the statement computes is 50 ms plus a draw below 700 ms. -/
theorem thinkDelay_value (src : List Nat) (d : Int) (rest : List Nat)
    (h : thinkDelay src = .value d rest) : 50000000 ≤ d ∧ d < 750000000 := by
  rw [thinkDelay_eq] at h
  cases hl : int63nLoop 700000000 src with
  | value r rest2 =>
    rw [hl] at h
    have hr := int63nLoop_value_lt 700000000 (by decide) src r rest2 hl
    injection h with h1 _
    rw [int64Wrap_of_range _ (by omega) (by omega)] at h1
    omega
  | panicked => rw [hl] at h; cases h
  | starved => rw [hl] at h; cases h

/-- Every delay from 50 ms up to one nanosecond below 750 ms is computed from some source. -/
theorem thinkDelay_attained (d : Int) (hlo : 50000000 ≤ d) (hhi : d < 750000000) :
    thinkDelay [(d - 50000000).toNat] = .value d [] := by
  rw [thinkDelay_eq]
  have hnat : (((d - 50000000).toNat : Nat) : Int) = d - 50000000 :=
    Int.toNat_of_nonneg (by omega)
  rw [int63nLoop_singleton 700000000 (d - 50000000).toNat (by omega)
    (by rw [int63nMax_delayBound]; omega) (by norm_num; omega)]
  simp only [hnat]
  rw [int64Wrap_of_range _ (by omega) (by omega)]
  congr 1
  omega

/-- C6: for every value the pseudo-random source returns in `thinkHandler`, the
computed delay lies between `minDelay` = 50 ms and `maxDelay` = 750 ms, that is
between 50,000,000 and 750,000,000 nanoseconds. -/
theorem thinkDelay_within_bounds (src : List Nat) (d : Int) (rest : List Nat)
    (h : thinkDelay src = .value d rest) :
    minDelay = 50000000 ∧ maxDelay = 750000000 ∧ minDelay ≤ d ∧ d ≤ maxDelay := by
  have hd := thinkDelay_value src d rest h
  refine ⟨minDelay_eq, maxDelay_eq, ?_, ?_⟩
  · rw [minDelay_eq]; exact hd.1
  · rw [maxDelay_eq]; omega

/-- Witness for C6: a source whose next raw output is 700,000,123 gives the delay
50,000,123 ns. -/
theorem thinkDelay_within_bounds_witness :
    thinkDelay [700000123] = .value 50000123 []
      ∧ (minDelay = 50000000 ∧ maxDelay = 750000000
          ∧ minDelay ≤ (50000123 : Int) ∧ (50000123 : Int) ≤ maxDelay) :=
  ⟨by decide, thinkDelay_within_bounds [700000123] 50000123 [] (by decide)⟩

/-- C8, as stated, fails: no state of the random source makes the delay equal to
`maxDelay` (750 ms). -/
theorem thinkDelay_maxDelay_unattainable :
    ¬ ∃ src rest, thinkDelay src = .value maxDelay rest := by
  rintro ⟨src, rest, h⟩
  have hd := thinkDelay_value src maxDelay rest h
  rw [maxDelay_eq] at hd
  omega

/-- C8, amended: the delay of `thinkHandler` is drawn from the half-open interval
from `minDelay` (included) to `maxDelay` (excluded): a nanosecond value is the
delay for some state of the random source exactly when it lies in that interval,
so 50 ms and 749.999999 ms are attained and 750 ms is not. -/
theorem thinkDelay_range_half_open (d : Int) :
    (∃ src rest, thinkDelay src = .value d rest) ↔ (minDelay ≤ d ∧ d < maxDelay) := by
  rw [minDelay_eq, maxDelay_eq]
  constructor
  · rintro ⟨src, rest, h⟩
    exact thinkDelay_value src d rest h
  · rintro ⟨hlo, hhi⟩
    exact ⟨_, _, thinkDelay_attained d hlo hhi⟩

/-- C10: the bound handed to `rand.Int63n` is the positive constant 700,000,000, so
the call never panics, and `minDelay` plus the number it returns is within the
`int64` range: the addition does not overflow. -/
theorem delayBound_positive_no_overflow :
    delayBound = 700000000 ∧ 0 < delayBound ∧
      ∀ src : List Nat,
        match Int63n delayBound src with
        | .value r _ =>
          0 ≤ r ∧ r < delayBound ∧ minInt64 ≤ minDelay + r ∧ minDelay + r ≤ maxInt64
            ∧ int64Wrap (minDelay + r) = minDelay + r
        | .panicked => False
        | .starved => True := by
  refine ⟨delayBound_eq, by decide, ?_⟩
  intro src
  rw [Int63n_delayBound]
  cases hl : int63nLoop 700000000 src with
  | value r rest =>
    have hr := int63nLoop_value_lt 700000000 (by decide) src r rest hl
    have hmin : minInt64 = -9223372036854775808 := by decide
    have hmax : maxInt64 = 9223372036854775807 := by decide
    simp only [delayBound_eq, minDelay_eq, hmin, hmax]
    have hr2 : r < 700000000 := by exact_mod_cast hr.2
    refine ⟨hr.1, hr2, by linarith [hr.1], by linarith, ?_⟩
    exact int64Wrap_of_range _ (by linarith [hr.1]) (by linarith)
  | panicked => exact absurd hl (int63nLoop_ne_panicked _ _)
  | starved => trivial

/-! ## Facts about metric vectors -/

/-- After get-or-create and an update of the same key, the entry holds the update
of the former value, or of the fresh one when the entry was absent. -/
theorem childOf_updateChild_getOrCreate {β : Type} (key : List String) (fresh : β) (f : β → β)
    (l : List (List String × β)) :
    childOf key (updateChild key f (getOrCreate key fresh l))
      = some (f ((childOf key l).getD fresh)) := by
  induction l with
  | nil => simp [getOrCreate, updateChild, childOf]
  | cons e rest ih =>
    obtain ⟨k, b⟩ := e
    by_cases hk : k = key
    · simp [getOrCreate, updateChild, childOf, hk]
    · simp [getOrCreate, updateChild, childOf, hk, ih]

/-- The label set of `beatHandler` fits a vector with the one label `service`. -/
theorem labelValues_service :
    labelValues ["service"] [("service", "heart-service")] = some ["heart-service"] := by
  decide

/-- One run of `beatHandler` on a counter with the label `service`: it returns,
having sent 200 and `lub-dub`, and the counter of `heart-service` is one higher. -/
theorem beatHandler_returns (p : Heart) (hnames : p.httpRequestsTotal.labelNames = ["service"]) :
    ∃ q, beatHandler ResponseWriter.fresh p = .returned q ⟨some 200, "lub-dub"⟩
      ∧ q.httpRequestsTotal.labelNames = ["service"]
      ∧ q.scrapes = p.scrapes
      ∧ childOf ["heart-service"] q.httpRequestsTotal.children
          = some (p.httpRequestsTotal.value ["heart-service"] + 1) := by
  have hrun : beatHandler ResponseWriter.fresh p
      = .returned
          { p with
            httpRequestsTotal :=
              CounterVec.Inc
                { p.httpRequestsTotal with
                  children := getOrCreate ["heart-service"] 0 p.httpRequestsTotal.children }
                ["heart-service"] }
          ⟨some 200, "lub-dub"⟩ := by
    simp only [beatHandler, CounterVec.With, hnames, labelValues_service]
    rfl
  refine ⟨_, hrun, ?_, rfl, ?_⟩
  · simp [CounterVec.Inc, hnames]
  · simp only [CounterVec.Inc, CounterVec.value]
    rw [childOf_updateChild_getOrCreate]

/-- Sequential runs from any state: `n` runs on a counter with the label `service`
all return with 200 and `lub-dub` and add `n` to the counter. -/
theorem beats_from (n : Nat) (p : Heart) (hnames : p.httpRequestsTotal.labelNames = ["service"]) :
    ∃ q, beats n p = some (q, List.replicate n ⟨some 200, "lub-dub"⟩)
      ∧ q.httpRequestsTotal.labelNames = ["service"]
      ∧ q.scrapes = p.scrapes
      ∧ q.httpRequestsTotal.value ["heart-service"]
          = p.httpRequestsTotal.value ["heart-service"] + n
      ∧ (0 < n → childOf ["heart-service"] q.httpRequestsTotal.children
          = some (p.httpRequestsTotal.value ["heart-service"] + n)) := by
  induction n generalizing p with
  | zero => exact ⟨p, rfl, hnames, rfl, rfl, fun h => absurd h (by decide)⟩
  | succ n ih =>
    obtain ⟨p1, hrun, hn1, hs1, hv1⟩ := beatHandler_returns p hnames
    obtain ⟨q, hq, hnq, hsq, hvq, hcq⟩ := ih p1 hn1
    have hval1 : p1.httpRequestsTotal.value ["heart-service"]
        = p.httpRequestsTotal.value ["heart-service"] + 1 := by
      simp [CounterVec.value, hv1]
    refine ⟨q, ?_, hnq, hsq.trans hs1, ?_, ?_⟩
    · simp only [beats, hrun, hq, List.replicate_succ]
    · rw [hvq, hval1]; omega
    · intro _
      rcases Nat.eq_zero_or_pos n with h0 | hpos
      · subst h0
        simp only [beats] at hq
        injection hq with hq
        injection hq with hq _
        subst hq
        rw [hv1]
      · rw [hcq hpos, hval1]
        congr 1
        omega

/-- C1: from the freshly registered `http_requests_total`, `n` sequential
invocations of `beatHandler` all return with status 200 and body `lub-dub`, and
leave the counter for `service=heart-service` at exactly `n`; the entry does not
exist before the first invocation, which creates it, and one more invocation
returns the same response and makes the value `n + 1`. -/
theorem beats_count (n : Nat) :
    ∃ p, beats n Heart.main = some (p, List.replicate n ⟨some 200, "lub-dub"⟩)
      ∧ p.httpRequestsTotal.value ["heart-service"] = n
      ∧ childOf ["heart-service"] p.httpRequestsTotal.children
          = (if n = 0 then none else some n)
      ∧ ∃ q, beatHandler ResponseWriter.fresh p = .returned q ⟨some 200, "lub-dub"⟩
          ∧ q.httpRequestsTotal.value ["heart-service"] = n + 1 := by
  obtain ⟨p, hp, hnp, _, hvp, hcp⟩ := beats_from n Heart.main rfl
  have h0 : Heart.main.httpRequestsTotal.value ["heart-service"] = 0 := rfl
  rw [h0, Nat.zero_add] at hvp hcp
  obtain ⟨q, hq, _, _, hvq⟩ := beatHandler_returns p hnp
  refine ⟨p, hp, hvp, ?_, q, hq, ?_⟩
  · rcases Nat.eq_zero_or_pos n with hz | hpos
    · subst hz
      simp only [beats] at hp
      injection hp with hp
      injection hp with hp _
      subst hp
      rfl
    · rw [if_neg (by omega), hcp hpos]
  · have hq2 : q.httpRequestsTotal.value ["heart-service"]
        = p.httpRequestsTotal.value ["heart-service"] + 1 := by
      simp only [CounterVec.value, hvq, Option.getD_some]
    rw [hq2, hvp]

/-! ## Facts about `thinkHandler` -/

/-- A source that still holds an acceptable raw output makes the loop return. -/
theorem int63nLoop_returns (n : Nat) (src : List Nat)
    (hsrc : ∃ x ∈ src, x % 2 ^ 63 ≤ int63nMax n) :
    ∃ r rest, int63nLoop n src = .value r rest := by
  induction src with
  | nil =>
    obtain ⟨x, hx, _⟩ := hsrc
    cases hx
  | cons y ys ih =>
    unfold int63nLoop
    by_cases hy : y % 2 ^ 63 > int63nMax n
    · rw [if_pos hy]
      apply ih
      obtain ⟨x, hx, hacc⟩ := hsrc
      rcases List.mem_cons.mp hx with hxy | hxs
      · subst hxy
        omega
      · exact ⟨x, hxs, hacc⟩
    · rw [if_neg hy]
      exact ⟨_, _, rfl⟩

/-- On such a source the delay statement yields a delay, from 50 ms to below 750 ms. -/
theorem thinkDelay_returns (src : List Nat)
    (hsrc : ∃ x ∈ src, x % 2 ^ 63 ≤ int63nMax 700000000) :
    ∃ d rest, thinkDelay src = .value d rest ∧ 50000000 ≤ d ∧ d < 750000000 := by
  obtain ⟨r, rest, hr⟩ := int63nLoop_returns 700000000 src hsrc
  have h : thinkDelay src = .value (int64Wrap (50000000 + r)) rest := by
    rw [thinkDelay_eq, hr]
  exact ⟨_, _, h, thinkDelay_value src _ rest h⟩

/-- In exact arithmetic `Seconds` is the division by 10^9. -/
theorem Seconds_eq (d : Int) : Seconds d = (d : ℚ) / 1000000000 := by
  have hS : Second = 1000000000 := by decide
  unfold Seconds
  rw [hS]
  have h := Int.tdiv_add_tmod d 1000000000
  have h2 : (d : ℚ)
      = 1000000000 * ((Int.tdiv d 1000000000 : Int) : ℚ)
        + ((Int.tmod d 1000000000 : Int) : ℚ) := by
    exact_mod_cast h.symm
  rw [h2]
  field_simp
  ring

/-- The time measured across a sleep of `d` is at least `d` and fits a `Duration`. -/
theorem Since_sleep (clock d : Int) (lateness : Nat) (hlo : 0 ≤ d) (hhi : d ≤ maxInt64) :
    d ≤ Since clock (clock + max d 0 + lateness)
      ∧ Since clock (clock + max d 0 + lateness) ≤ maxInt64 := by
  unfold Since
  have hmin : minInt64 = -9223372036854775808 := by decide
  have hmax : maxInt64 = 9223372036854775807 := by decide
  rw [hmin, hmax] at *
  rw [max_eq_left hlo]
  have hdiff : clock + d + (lateness : Int) - clock = d + lateness := by ring
  rw [hdiff]
  have hl : (0 : Int) ≤ lateness := Int.ofNat_nonneg _
  constructor
  · apply le_max_of_le_right
    apply le_min hhi
    linarith
  · apply max_le (by norm_num)
    exact min_le_left _ _

/-- The `_count` after get-or-create and one observation is one more than before. -/
theorem count_observe_getOrCreate (v : HistogramVec) (key : List String) (x : ℚ) :
    HistogramVec.count
        (HistogramVec.Observe
          { v with children := getOrCreate key (newHistogram v.upperBounds) v.children } key x)
        key
      = v.count key + 1 := by
  simp only [HistogramVec.count, HistogramVec.Observe]
  rw [childOf_updateChild_getOrCreate]
  cases childOf key v.children with
  | none => simp [Histogram.Observe, newHistogram]
  | some h => simp [Histogram.Observe]

/-- The `_sum` after get-or-create and one observation has grown by the observed value. -/
theorem sum_observe_getOrCreate (v : HistogramVec) (key : List String) (x : ℚ) :
    HistogramVec.sum
        (HistogramVec.Observe
          { v with children := getOrCreate key (newHistogram v.upperBounds) v.children } key x)
        key
      = v.sum key + x := by
  simp only [HistogramVec.sum, HistogramVec.Observe]
  rw [childOf_updateChild_getOrCreate]
  cases childOf key v.children with
  | none => simp [Histogram.Observe, newHistogram]
  | some h => simp [Histogram.Observe]

/-- The lookup of `thinkHandler` succeeds on a vector with the one label `service`. -/
theorem WithLabelValues_brain (v : HistogramVec) (hnames : v.labelNames = ["service"]) :
    v.WithLabelValues ["brain-service"]
      = some (["brain-service"],
          { v with
            children := getOrCreate ["brain-service"] (newHistogram v.upperBounds) v.children }) := by
  unfold HistogramVec.WithLabelValues
  rw [hnames]
  rfl

/-- One run of `thinkHandler` in closed form, for a drawn delay `d`. -/
theorem thinkHandler_eq (lateness : Nat) (p : Brain) (d : Int) (rest : List Nat)
    (hnames : p.httpRequestDuration.labelNames = ["service"])
    (hd : thinkDelay p.globalRand = .value d rest) :
    thinkHandler ResponseWriter.fresh lateness p
      = .returned
          { httpRequestDuration :=
              HistogramVec.Observe
                { p.httpRequestDuration with
                  children :=
                    getOrCreate ["brain-service"] (newHistogram p.httpRequestDuration.upperBounds)
                      p.httpRequestDuration.children }
                ["brain-service"]
                (Seconds (Since p.clock (p.clock + max d 0 + lateness)))
            scrapes := p.scrapes
            clock := p.clock + max d 0 + lateness
            globalRand := rest }
          ⟨some 200, "thought processed"⟩ := by
  unfold thinkHandler
  rw [WithLabelValues_brain _ hnames]
  simp only [thinkBody, hd, Run.andDefer, Timer.ObserveDuration, NewTimer, Sleep]
  rfl

/-- C2: every invocation of `thinkHandler`, whatever delay is drawn and however
long the sleep overshoots, returns with status 200 and body `thought processed`
and adds exactly one observation to `http_request_duration_seconds` for
`service=brain-service`, so that from the fresh registry `_count` is 1; and on
every exit of the function body, by return or by panic, the deferred call adds
exactly one observation. -/
theorem thinkHandler_observes_once (lateness : Nat) (p : Brain)
    (hnames : p.httpRequestDuration.labelNames = ["service"])
    (hsrc : ∃ x ∈ p.globalRand, x % 2 ^ 63 ≤ int63nMax 700000000) :
    (∃ q, thinkHandler ResponseWriter.fresh lateness p
            = .returned q ⟨some 200, "thought processed"⟩
        ∧ q.httpRequestDuration.count ["brain-service"]
            = p.httpRequestDuration.count ["brain-service"] + 1
        ∧ (p.httpRequestDuration = K8sAnatomy.httpRequestDuration
            → q.httpRequestDuration.count ["brain-service"] = 1))
      ∧ ∀ (s : Brain) (w : ResponseWriter),
          p.httpRequestDuration.WithLabelValues ["brain-service"]
              = some (["brain-service"], s.httpRequestDuration) →
          ∃ s1 s2,
            (Run.returned s w).andDefer (NewTimer ["brain-service"] p).ObserveDuration
                = .returned s1 w
              ∧ (Run.panicked s w).andDefer (NewTimer ["brain-service"] p).ObserveDuration
                = .panicked s2 w
              ∧ s1.httpRequestDuration.count ["brain-service"]
                  = p.httpRequestDuration.count ["brain-service"] + 1
              ∧ s2.httpRequestDuration.count ["brain-service"]
                  = p.httpRequestDuration.count ["brain-service"] + 1 := by
  constructor
  · obtain ⟨d, rest, hd, _, _⟩ := thinkDelay_returns p.globalRand hsrc
    refine ⟨_, thinkHandler_eq lateness p d rest hnames hd, ?_, ?_⟩
    · exact count_observe_getOrCreate _ _ _
    · intro hfresh
      have hc := count_observe_getOrCreate p.httpRequestDuration ["brain-service"]
        (Seconds (Since p.clock (p.clock + max d 0 + lateness)))
      have h0 : p.httpRequestDuration.count ["brain-service"] = 0 := by
        rw [hfresh]; rfl
      rw [h0] at hc
      exact hc
  · intro s w hs
    rw [WithLabelValues_brain _ hnames] at hs
    injection hs with hs
    injection hs with _ hs
    refine ⟨_, _, rfl, rfl, ?_, ?_⟩
    · simp only [Timer.ObserveDuration, NewTimer]
      rw [← hs]
      exact count_observe_getOrCreate _ _ _
    · simp only [Timer.ObserveDuration, NewTimer]
      rw [← hs]
      exact count_observe_getOrCreate _ _ _

/-- Witness for C2: the first request to a brain-service that has just started,
with the default source about to output 123. -/
theorem thinkHandler_observes_once_witness :
    (Brain.main (fun _ => []) 0 0 [123]).httpRequestDuration.labelNames = ["service"]
      ∧ (∃ x ∈ (Brain.main (fun _ => []) 0 0 [123]).globalRand,
          x % 2 ^ 63 ≤ int63nMax 700000000)
      ∧ ∃ q, thinkHandler ResponseWriter.fresh 0 (Brain.main (fun _ => []) 0 0 [123])
            = .returned q ⟨some 200, "thought processed"⟩
          ∧ q.httpRequestDuration.count ["brain-service"] = 1 :=
  have hsrc : ∃ x ∈ (Brain.main (fun _ => []) 0 0 [123]).globalRand,
      x % 2 ^ 63 ≤ int63nMax 700000000 := ⟨123, List.mem_singleton.mpr rfl, by decide⟩
  have h := (thinkHandler_observes_once 0 (Brain.main (fun _ => []) 0 0 [123]) rfl hsrc).1
  ⟨rfl, hsrc, h.elim fun q hq => ⟨q, hq.1, hq.2.2 rfl⟩⟩

/-- C7: the value `thinkHandler` passes to the histogram is the measured time in
seconds, which is at least the drawn delay, hence at least 0.05, and at most the
largest `Duration`: it is finite and non-negative, and the observation with the
input check of the specification never fails on it. -/
theorem thinkHandler_observation_valid (lateness : Nat) (p : Brain)
    (hnames : p.httpRequestDuration.labelNames = ["service"])
    (hsrc : ∃ x ∈ p.globalRand, x % 2 ^ 63 ≤ int63nMax 700000000) :
    ∃ q w v d rest vec,
      thinkDelay p.globalRand = .value d rest
        ∧ thinkHandler ResponseWriter.fresh lateness p = .returned q w
        ∧ p.httpRequestDuration.WithLabelValues ["brain-service"]
            = some (["brain-service"], vec)
        ∧ q.httpRequestDuration = vec.Observe ["brain-service"] v
        ∧ q.httpRequestDuration.sum ["brain-service"]
            = p.httpRequestDuration.sum ["brain-service"] + v
        ∧ (d : ℚ) / 1000000000 ≤ v
        ∧ (1 : ℚ) / 20 ≤ v
        ∧ 0 ≤ v
        ∧ v ≤ 9223372036854775807 / 1000000000
        ∧ ∀ h : Histogram, observeChecked h v = .ok (h.Observe v) := by
  obtain ⟨d, rest, hd, hlo, hhi⟩ := thinkDelay_returns p.globalRand hsrc
  have hmax : maxInt64 = 9223372036854775807 := by decide
  obtain ⟨hge, hle⟩ := Since_sleep p.clock d lateness (by omega) (by rw [hmax]; omega)
  rw [hmax] at hle
  have hdv : (d : ℚ) / 1000000000
      ≤ Seconds (Since p.clock (p.clock + max d 0 + lateness)) := by
    rw [Seconds_eq]
    have : (d : ℚ) ≤ (Since p.clock (p.clock + max d 0 + lateness) : ℚ) := by
      exact_mod_cast hge
    exact div_le_div_of_nonneg_right this (by norm_num)
  have hd20 : (1 : ℚ) / 20 ≤ (d : ℚ) / 1000000000 := by
    have : ((50000000 : Int) : ℚ) ≤ (d : ℚ) := by exact_mod_cast hlo
    have h20 : (1 : ℚ) / 20 = ((50000000 : Int) : ℚ) / 1000000000 := by norm_num
    rw [h20]
    exact div_le_div_of_nonneg_right this (by norm_num)
  have hv0 : (0 : ℚ) ≤ Seconds (Since p.clock (p.clock + max d 0 + lateness)) := by
    linarith
  refine ⟨_, _, Seconds (Since p.clock (p.clock + max d 0 + lateness)), d, rest, _, hd,
    thinkHandler_eq lateness p d rest hnames hd, WithLabelValues_brain _ hnames, rfl,
    sum_observe_getOrCreate _ _ _, hdv, le_trans hd20 hdv, hv0, ?_, ?_⟩
  · rw [Seconds_eq]
    have : (Since p.clock (p.clock + max d 0 + lateness) : ℚ)
        ≤ ((9223372036854775807 : Int) : ℚ) := by exact_mod_cast hle
    push_cast at this
    exact div_le_div_of_nonneg_right this (by norm_num)
  · intro h
    unfold observeChecked
    rw [if_neg (not_lt.mpr hv0)]

/-- Witness for C7: the first request to a brain-service that has just started,
with the default source about to output 123 and the sleep 7 ns late. -/
theorem thinkHandler_observation_valid_witness :
    (Brain.main (fun _ => []) 0 0 [123]).httpRequestDuration.labelNames = ["service"]
      ∧ (∃ x ∈ (Brain.main (fun _ => []) 0 0 [123]).globalRand,
          x % 2 ^ 63 ≤ int63nMax 700000000)
      ∧ ∃ q w v, thinkHandler ResponseWriter.fresh 7 (Brain.main (fun _ => []) 0 0 [123])
            = .returned q w
          ∧ q.httpRequestDuration.sum ["brain-service"]
              = (Brain.main (fun _ => []) 0 0 [123]).httpRequestDuration.sum ["brain-service"] + v
          ∧ (0 : ℚ) ≤ v :=
  have hsrc : ∃ x ∈ (Brain.main (fun _ => []) 0 0 [123]).globalRand,
      x % 2 ^ 63 ≤ int63nMax 700000000 := ⟨123, List.mem_singleton.mpr rfl, by decide⟩
  have h := thinkHandler_observation_valid 7 (Brain.main (fun _ => []) 0 0 [123]) rfl hsrc
  ⟨rfl, hsrc, h.elim fun q hq => hq.elim fun w hw => hw.elim fun v hv =>
    hv.elim fun _ h1 => h1.elim fun _ h2 => h2.elim fun _ h3 =>
      ⟨q, w, v, h3.2.1, h3.2.2.2.2.1, h3.2.2.2.2.2.2.2.1⟩⟩

/-! ## Facts about histogram buckets -/

/-- Raising the start of the running totals raises each of them. -/
theorem cumulate_succ (acc : Nat) (cs : List Nat) (i : Nat) (hi : i < cs.length) :
    (cumulate (acc + 1) cs).getD i 0 = (cumulate acc cs).getD i 0 + 1 := by
  induction cs generalizing acc i with
  | nil => simp at hi
  | cons c cs ih =>
    cases i with
    | zero => simp [cumulate]; omega
    | succ i =>
      simp only [cumulate, List.getD_cons_succ]
      have hi2 : i < cs.length := by simpa using hi
      have hc : acc + 1 + c = (acc + c) + 1 := by omega
      rw [hc]
      exact ih (acc + c) i hi2

/-- A count added at position `j` shows in the running totals from `j` on. -/
theorem cumulate_incAt (acc j : Nat) (cs : List Nat) (i : Nat) (hi : i < cs.length) :
    (cumulate acc (incAt j cs)).getD i 0
      = (cumulate acc cs).getD i 0 + (if j ≤ i then 1 else 0) := by
  induction cs generalizing acc j i with
  | nil => simp at hi
  | cons c cs ih =>
    cases j with
    | zero =>
      cases i with
      | zero => simp [incAt, cumulate]; omega
      | succ i =>
        have hi2 : i < cs.length := by simpa using hi
        simp only [incAt, cumulate, List.getD_cons_succ, Nat.zero_le, if_true]
        have hc : acc + (c + 1) = (acc + c) + 1 := by omega
        rw [hc]
        exact cumulate_succ (acc + c) cs i hi2
    | succ j =>
      cases i with
      | zero => simp [incAt, cumulate]
      | succ i =>
        have hi2 : i < cs.length := by simpa using hi
        simp only [incAt, cumulate, List.getD_cons_succ]
        rw [ih (acc + c) j i hi2]
        simp only [Nat.succ_le_succ_iff]

/-- For ascending bounds, the bucket an observation falls into is at or before
position `i` exactly when the observation is at most the bound at `i`. -/
theorem findBucket_le_iff (bounds : List ℚ) (hsorted : bounds.Pairwise (· < ·)) (v : ℚ)
    (i : Nat) (hi : i < bounds.length) :
    findBucket bounds v ≤ i ↔ v ≤ bounds.getD i 0 := by
  induction bounds generalizing i with
  | nil => simp at hi
  | cons b bs ih =>
    rw [List.pairwise_cons] at hsorted
    obtain ⟨hb, hbs⟩ := hsorted
    cases i with
    | zero =>
      by_cases hv : v ≤ b
      · simp [findBucket, hv]
      · simp [findBucket, hv]
    | succ i =>
      have hi2 : i < bs.length := by simpa using hi
      simp only [List.getD_cons_succ]
      by_cases hv : v ≤ b
      · simp only [findBucket, hv, if_true, Nat.zero_le, true_iff]
        have hmem : bs.getD i 0 ∈ bs := by
          rw [List.getD_eq_getElem _ _ hi2]
          exact List.getElem_mem hi2
        exact le_trans hv (le_of_lt (hb _ hmem))
      · simp only [findBucket, hv, if_false, Nat.succ_le_succ_iff]
        exact ih hbs i hi2

/-- Adding a count keeps the number of buckets. -/
theorem incAt_length (j : Nat) (cs : List Nat) : (incAt j cs).length = cs.length := by
  induction cs generalizing j with
  | nil => cases j <;> rfl
  | cons c cs ih =>
    cases j with
    | zero => rfl
    | succ j => simp [incAt, ih]

/-- There are as many running totals as counts. -/
theorem cumulate_length (acc : Nat) (cs : List Nat) : (cumulate acc cs).length = cs.length := by
  induction cs generalizing acc with
  | nil => rfl
  | cons c cs ih => simp [cumulate, ih]

/-- Running totals start at `acc` at least and never decrease. -/
theorem cumulate_sorted (acc : Nat) (cs : List Nat) :
    (∀ x ∈ cumulate acc cs, acc ≤ x) ∧ (cumulate acc cs).Pairwise (· ≤ ·) := by
  induction cs generalizing acc with
  | nil => simp [cumulate]
  | cons c cs ih =>
    obtain ⟨hge, hsorted⟩ := ih (acc + c)
    constructor
    · intro x hx
      simp only [cumulate, List.mem_cons] at hx
      rcases hx with hx | hx
      · omega
      · have := hge x hx
        omega
    · simp only [cumulate, List.pairwise_cons]
      exact ⟨hge, hsorted⟩

/-- Running totals of zeros from zero are zero. -/
theorem cumulate_replicate_zero (n i : Nat) :
    (cumulate 0 (List.replicate n 0)).getD i 0 = 0 := by
  induction n generalizing i with
  | zero => simp [cumulate]
  | succ n ih =>
    cases i with
    | zero => simp [List.replicate_succ, cumulate]
    | succ i => simpa [List.replicate_succ, cumulate] using ih i

/-- One observation on a histogram with ascending bounds and a count per bound:
the cumulative count of a bucket grows by one exactly when the value is at most
the bound of the bucket. -/
theorem cumulativeCount_Observe (h : Histogram) (hsorted : h.upperBounds.Pairwise (· < ·))
    (hlen : h.buckets.length = h.upperBounds.length) (v : ℚ) (i : Nat)
    (hi : i < h.upperBounds.length) :
    (h.Observe v).cumulativeCount i
      = h.cumulativeCount i + (if v ≤ h.upperBounds.getD i 0 then 1 else 0) := by
  simp only [Histogram.cumulativeCount, Histogram.cumulativeCounts, Histogram.Observe]
  rw [cumulate_incAt 0 _ h.buckets i (by omega)]
  by_cases hv : v ≤ h.upperBounds.getD i 0
  · rw [if_pos hv, if_pos ((findBucket_le_iff _ hsorted v i hi).mpr hv)]
  · rw [if_neg hv, if_neg (fun hle => hv ((findBucket_le_iff _ hsorted v i hi).mp hle))]

/-- After any observations the cumulative count of a bucket has grown by the number
of observations that are at most its bound. -/
theorem cumulativeCount_observeAll (obs : List ℚ) (h : Histogram)
    (hsorted : h.upperBounds.Pairwise (· < ·))
    (hlen : h.buckets.length = h.upperBounds.length) (i : Nat) (hi : i < h.upperBounds.length) :
    (h.observeAll obs).upperBounds = h.upperBounds
      ∧ (h.observeAll obs).buckets.length = h.upperBounds.length
      ∧ (h.observeAll obs).cumulativeCount i
          = h.cumulativeCount i
            + obs.countP (fun v => decide (v ≤ h.upperBounds.getD i 0)) := by
  induction obs generalizing h with
  | nil => exact ⟨rfl, hlen, by simp [Histogram.observeAll]⟩
  | cons v vs ih =>
    have hb : (h.Observe v).upperBounds = h.upperBounds := rfl
    have hl : (h.Observe v).buckets.length = (h.Observe v).upperBounds.length := by
      simp only [Histogram.Observe, incAt_length, hlen]
    obtain ⟨h1, h2, h3⟩ := ih (h.Observe v) (by rw [hb]; exact hsorted) hl (by rw [hb]; exact hi)
    have hfold : h.observeAll (v :: vs) = (h.Observe v).observeAll vs := rfl
    rw [hfold]
    refine ⟨h1.trans hb, h2.trans (by rw [hb]), ?_⟩
    rw [h3, hb, cumulativeCount_Observe h hsorted hlen v i hi, List.countP_cons]
    simp only [decide_eq_true_eq]
    omega

/-- C5: the histogram of brain-service has the bucket bounds 0.05, 0.1, 0.25, 0.5,
0.75, 1.0, a non-empty strictly increasing sequence; after any sequence of
observations, for each bound and each further observation `v`, the cumulative
count of the bucket includes `v` exactly when `v` is at most the bound; each
cumulative count is the number of observations at most its bound, and the
counts do not decrease along the bounds. -/
theorem brain_buckets_cumulative :
    httpRequestDuration.upperBounds = [1 / 20, 1 / 10, 1 / 4, 1 / 2, 3 / 4, 1]
      ∧ httpRequestDuration.upperBounds ≠ []
      ∧ httpRequestDuration.upperBounds.Pairwise (· < ·)
      ∧ ∀ (obs : List ℚ) (i : Fin 6),
          (∀ v : ℚ,
              (((newHistogram httpRequestDuration.upperBounds).observeAll obs).Observe
                  v).cumulativeCount i
                = ((newHistogram httpRequestDuration.upperBounds).observeAll obs).cumulativeCount i
                  + (if v ≤ httpRequestDuration.upperBounds.getD i 0 then 1 else 0))
            ∧ ((newHistogram httpRequestDuration.upperBounds).observeAll obs).cumulativeCount i
                = obs.countP (fun v => decide (v ≤ httpRequestDuration.upperBounds.getD i 0))
            ∧ ((newHistogram httpRequestDuration.upperBounds).observeAll
                  obs).cumulativeCounts.Pairwise (· ≤ ·)
            ∧ ((newHistogram httpRequestDuration.upperBounds).observeAll
                  obs).cumulativeCounts.length = 6 := by
  have hb : httpRequestDuration.upperBounds = [1 / 20, 1 / 10, 1 / 4, 1 / 2, 3 / 4, 1] := rfl
  have hsorted : httpRequestDuration.upperBounds.Pairwise (· < ·) := by
    rw [hb]
    simp only [List.pairwise_cons, List.mem_cons, List.mem_singleton, List.not_mem_nil,
      forall_eq_or_imp, forall_eq, List.Pairwise.nil, and_true, or_false, false_implies,
      implies_true]
    norm_num
  refine ⟨hb, by rw [hb]; simp, hsorted, ?_⟩
  intro obs i
  have hlen6 : httpRequestDuration.upperBounds.length = 6 := rfl
  have hnew : (newHistogram httpRequestDuration.upperBounds).upperBounds
      = httpRequestDuration.upperBounds := rfl
  have hlen : (newHistogram httpRequestDuration.upperBounds).buckets.length
      = (newHistogram httpRequestDuration.upperBounds).upperBounds.length := by
    simp [newHistogram]
  have hi : (i : Nat) < (newHistogram httpRequestDuration.upperBounds).upperBounds.length := by
    rw [hnew, hlen6]; exact i.2
  obtain ⟨h1, h2, h3⟩ := cumulativeCount_observeAll obs
    (newHistogram httpRequestDuration.upperBounds) (by rw [hnew]; exact hsorted) hlen i hi
  rw [hnew] at h1 h2 h3
  have h0 : (newHistogram httpRequestDuration.upperBounds).cumulativeCount i = 0 := by
    simp only [Histogram.cumulativeCount, Histogram.cumulativeCounts, newHistogram]
    exact cumulate_replicate_zero _ _
  refine ⟨?_, ?_, ?_, ?_⟩
  · intro v
    have := cumulativeCount_Observe
      ((newHistogram httpRequestDuration.upperBounds).observeAll obs)
      (by rw [h1]; exact hsorted) (by rw [h1, h2]) v i (by rw [h1, hlen6]; exact i.2)
    rw [h1] at this
    exact this
  · rw [h3, h0, Nat.zero_add]
  · exact (cumulate_sorted 0 _).2
  · simp only [Histogram.cumulativeCounts, cumulate_length, h2, hlen6]

/-! ## Facts about the `/metrics` handler -/

/-- C4, as stated, fails: serving `/metrics` on a heart-service that has just
started changes the registry (the scrape counter for code 200 goes from 0 to 1),
and a second rendering right after the first gives another output. -/
theorem metricsHandler_counts_scrapes :
    (Heart.metricsHandler Heart.main).1 ≠ Heart.main
      ∧ Heart.main.scrapes.requestsTotal.value ["200"] = 0
      ∧ (Heart.metricsHandler Heart.main).1.scrapes.requestsTotal.value ["200"] = 1
      ∧ (Heart.metricsHandler (Heart.metricsHandler Heart.main).1).2.2
          ≠ (Heart.metricsHandler Heart.main).2.2 := by
  decide

/-- C4, amended: serving `/metrics` never changes the instrument the service itself
registered (`http_requests_total` in heart-service, `http_request_duration_seconds`
in brain-service, nor the clock and the random source there), it answers with
status 200, and two renderings with no request to the functional endpoint between
them report that instrument by the same samples: both outputs are these samples
followed by the samples of the instrumentation of the `/metrics` handler itself,
the only part of the registry that serving changes. -/
theorem metricsHandler_keeps_service_instrument :
    (∀ p : Heart,
        (Heart.metricsHandler p).1.httpRequestsTotal = p.httpRequestsTotal
          ∧ (Heart.metricsHandler p).2.1 = 200
          ∧ (Heart.metricsHandler p).2.2
              = p.httpRequestsTotal.collect "http_requests_total"
                ++ MetricHandler.collect { p.scrapes with inFlight := p.scrapes.inFlight + 1 }
          ∧ (Heart.metricsHandler (Heart.metricsHandler p).1).2.2
              = p.httpRequestsTotal.collect "http_requests_total"
                ++ MetricHandler.collect
                    { (Heart.metricsHandler p).1.scrapes with
                      inFlight := (Heart.metricsHandler p).1.scrapes.inFlight + 1 })
      ∧ ∀ p : Brain,
          (Brain.metricsHandler p).1.httpRequestDuration = p.httpRequestDuration
            ∧ (Brain.metricsHandler p).1.clock = p.clock
            ∧ (Brain.metricsHandler p).1.globalRand = p.globalRand
            ∧ (Brain.metricsHandler p).2.1 = 200
            ∧ (Brain.metricsHandler p).2.2
                = p.httpRequestDuration.collect "http_request_duration_seconds"
                  ++ MetricHandler.collect { p.scrapes with inFlight := p.scrapes.inFlight + 1 }
            ∧ (Brain.metricsHandler (Brain.metricsHandler p).1).2.2
                = p.httpRequestDuration.collect "http_request_duration_seconds"
                  ++ MetricHandler.collect
                      { (Brain.metricsHandler p).1.scrapes with
                        inFlight := (Brain.metricsHandler p).1.scrapes.inFlight + 1 } := by
  constructor
  · intro p
    exact ⟨rfl, rfl, rfl, rfl⟩
  · intro p
    exact ⟨rfl, rfl, rfl, rfl, rfl, rfl⟩

/-! ## Facts about the random source -/

/-- C9 on the code: `main` leaves the default source of `math/rand` as the runtime
set it up, whatever the seed and the seeding function, so the state in which
brain-service starts to serve does not depend on the seed; with the seeding
`fun s => [s.toNat]` and the seed 7 in both runs, a default source about to output
5 gives the first delay 50,000,005 ns and one about to output 9 gives
50,000,009 ns, while the generator seeded in `main` would have given
50,000,007 ns. -/
theorem main_drops_seeded_source :
    (∀ (newSource : Int → List Nat) (seed clock : Int) (defaultSource : List Nat),
        (Brain.main newSource seed clock defaultSource).globalRand = defaultSource)
      ∧ thinkDelay (Brain.main (fun s => [s.toNat]) 7 0 [5]).globalRand = .value 50000005 []
      ∧ thinkDelay (Brain.main (fun s => [s.toNat]) 7 0 [9]).globalRand = .value 50000009 []
      ∧ thinkDelay ((fun s : Int => [s.toNat]) 7) = .value 50000007 [] := by
  refine ⟨fun _ _ _ _ => rfl, by decide, by decide, by decide⟩

/-! ## Facts about concurrent requests to `/beat` -/

/-- After get-or-create the entry exists, with its former value or the fresh one. -/
theorem childOf_getOrCreate {β : Type} (key : List String) (fresh : β)
    (l : List (List String × β)) :
    childOf key (getOrCreate key fresh l) = some ((childOf key l).getD fresh) := by
  induction l with
  | nil => simp [getOrCreate, childOf]
  | cons e rest ih =>
    obtain ⟨k, b⟩ := e
    by_cases hk : k = key
    · simp [getOrCreate, childOf, hk]
    · simp [getOrCreate, childOf, hk, ih]

/-- An update changes the entry of its key, if there is one. -/
theorem childOf_updateChild {β : Type} (key : List String) (f : β → β)
    (l : List (List String × β)) :
    childOf key (updateChild key f l) = (childOf key l).map f := by
  induction l with
  | nil => simp [updateChild, childOf]
  | cons e rest ih =>
    obtain ⟨k, b⟩ := e
    by_cases hk : k = key
    · simp [updateChild, childOf, hk]
    · simp [updateChild, childOf, hk, ih]

/-- One step of an invocation in order, on a counter with the declared label: the
label stays, the invocation stays in order and has advanced by one statement
unless it had returned, the entry exists once the invocation has looked it up
and is never removed, and the counter grows by one exactly in the `Inc` step. -/
theorem beatStep_spec (t : BeatTask) (p : Heart)
    (hnames : p.httpRequestsTotal.labelNames = ["service"]) (hok : t.ok)
    (hentry : 1 ≤ t.pc →
      (childOf ["heart-service"] p.httpRequestsTotal.children).isSome = true) :
    (beatStep t p).2.httpRequestsTotal.labelNames = ["service"]
      ∧ (beatStep t p).1.ok
      ∧ (beatStep t p).1.pc = min 4 (t.pc + 1)
      ∧ ((childOf ["heart-service"] p.httpRequestsTotal.children).isSome = true →
          (childOf ["heart-service"] (beatStep t p).2.httpRequestsTotal.children).isSome = true)
      ∧ (1 ≤ (beatStep t p).1.pc →
          (childOf ["heart-service"] (beatStep t p).2.httpRequestsTotal.children).isSome = true)
      ∧ (beatStep t p).2.httpRequestsTotal.value ["heart-service"]
          = p.httpRequestsTotal.value ["heart-service"] + (if t.pc = 1 then 1 else 0) := by
  obtain ⟨pc, child, w⟩ := t
  obtain ⟨hpc, hchild, hw⟩ := hok
  simp only at hpc hchild hw hentry
  interval_cases pc
  · simp [beatStep, CounterVec.With, hnames, labelValues_service, BeatTask.ok,
      CounterVec.value, childOf_getOrCreate, hw]
  · have hc : child = ["heart-service"] := hchild (by decide)
    have he := hentry (by decide)
    subst hc
    obtain ⟨v, hv⟩ := Option.isSome_iff_exists.mp he
    simp [beatStep, CounterVec.Inc, hnames, BeatTask.ok, CounterVec.value,
      childOf_updateChild, hv, hw]
  · have he := hentry (by decide)
    have hc : child = ["heart-service"] := hchild (by decide)
    simp [beatStep, hnames, BeatTask.ok, he, hw, hc, ResponseWriter.WriteHeader,
      ResponseWriter.fresh, StatusOK]
  · have he := hentry (by decide)
    have hc : child = ["heart-service"] := hchild (by decide)
    simp [beatStep, hnames, BeatTask.ok, he, hw, hc, ResponseWriter.Write, StatusOK]
  · have he := hentry (by decide)
    have hc : child = ["heart-service"] := hchild (by decide)
    simp [beatStep, hnames, BeatTask.ok, he, hw, hc]

/-- A scheduler step either finds no invocation of that number and changes
nothing, or it is one step of the invocation at that position. -/
theorem stepAt_cases (i : Nat) (ts : List BeatTask) (p : Heart) :
    (ts.length ≤ i ∧ stepAt i ts p = (ts, p))
      ∨ ∃ l1 t l2, ts = l1 ++ t :: l2 ∧ l1.length = i
          ∧ stepAt i ts p = (l1 ++ (beatStep t p).1 :: l2, (beatStep t p).2) := by
  induction ts generalizing i with
  | nil => cases i <;> exact Or.inl ⟨Nat.zero_le _, rfl⟩
  | cons t ts ih =>
    cases i with
    | zero => exact Or.inr ⟨[], t, ts, rfl, rfl, rfl⟩
    | succ i =>
      rcases ih i with ⟨hlen, heq⟩ | ⟨l1, u, l2, hts, hl, heq⟩
      · left
        refine ⟨by simpa using hlen, ?_⟩
        simp only [stepAt, heq]
      · right
        refine ⟨t :: l1, u, l2, by simp [hts], by simp [hl], ?_⟩
        simp only [stepAt, heq, List.cons_append]

/-- Every scheduler step keeps the invariant of heart-service and its invocations. -/
theorem stepAt_invariant (i : Nat) (ts : List BeatTask) (p : Heart)
    (hinv : beatsInvariant ts p) :
    beatsInvariant (stepAt i ts p).1 (stepAt i ts p).2 := by
  rcases stepAt_cases i ts p with ⟨_, heq⟩ | ⟨l1, t, l2, hts, _, heq⟩
  · rw [heq]; exact hinv
  · obtain ⟨hnames, hall, hentry, hval⟩ := hinv
    subst hts
    have htok : t.ok := hall t (by simp)
    have htentry : 1 ≤ t.pc →
        (childOf ["heart-service"] p.httpRequestsTotal.children).isSome = true :=
      fun h => hentry ⟨t, by simp, h⟩
    obtain ⟨h1, h2, h3, h4, h5, h6⟩ := beatStep_spec t p hnames htok htentry
    rw [heq]
    refine ⟨h1, ?_, ?_, ?_⟩
    · intro u hu
      simp only [List.mem_append, List.mem_cons] at hu
      rcases hu with hu | hu | hu
      · exact hall u (by simp [hu])
      · rw [hu]; exact h2
      · exact hall u (by simp [hu])
    · rintro ⟨u, hu, hpc⟩
      simp only [List.mem_append, List.mem_cons] at hu
      rcases hu with hu | hu | hu
      · exact h4 (hentry ⟨u, by simp [hu], hpc⟩)
      · rw [hu] at hpc; exact h5 hpc
      · exact h4 (hentry ⟨u, by simp [hu], hpc⟩)
    · rw [h6, hval]
      simp only [List.countP_append, List.countP_cons, h3, decide_eq_true_eq]
      have hpc := htok.1
      split_ifs <;> omega

/-- A scheduler step keeps the number of invocations. -/
theorem stepAt_length (i : Nat) (ts : List BeatTask) (p : Heart) :
    (stepAt i ts p).1.length = ts.length := by
  rcases stepAt_cases i ts p with ⟨_, heq⟩ | ⟨l1, t, l2, hts, _, heq⟩
  · rw [heq]
  · rw [heq, hts]; simp

/-- A scheduler step advances the invocation it names by one statement, unless
that one has returned, and no other. -/
theorem stepAt_pc (i j : Nat) (ts : List BeatTask) (p : Heart)
    (hnames : p.httpRequestsTotal.labelNames = ["service"])
    (hall : ∀ t ∈ ts, t.ok ∧ (1 ≤ t.pc →
      (childOf ["heart-service"] p.httpRequestsTotal.children).isSome = true))
    (hj : j < ts.length) :
    ((stepAt i ts p).1.map BeatTask.pc).getD j 0
      = if j = i then min 4 ((ts.map BeatTask.pc).getD j 0 + 1)
        else (ts.map BeatTask.pc).getD j 0 := by
  induction ts generalizing i j with
  | nil => simp at hj
  | cons t ts ih =>
    have hts : ∀ u ∈ ts, u.ok ∧ (1 ≤ u.pc →
        (childOf ["heart-service"] p.httpRequestsTotal.children).isSome = true) :=
      fun u hu => hall u (List.mem_cons_of_mem _ hu)
    cases i with
    | zero =>
      cases j with
      | zero =>
        obtain ⟨htok, hte⟩ := hall t (List.mem_cons_self _ _)
        have h3 := (beatStep_spec t p hnames htok hte).2.2.1
        simp [stepAt, h3]
      | succ j => simp [stepAt]
    | succ i =>
      cases j with
      | zero => simp [stepAt]
      | succ j =>
        have hj2 : j < ts.length := by simpa using hj
        have := ih i j hts hj2
        simp only [stepAt, List.map_cons, List.getD_cons_succ, this, Nat.succ_inj]

/-- Any schedule keeps the invariant and the number of invocations, and leaves each
invocation as many statements further as the schedule names it, up to its return. -/
theorem runSchedule_spec (sched : List Nat) (ts : List BeatTask) (p : Heart)
    (hinv : beatsInvariant ts p) :
    beatsInvariant (runSchedule sched ts p).1 (runSchedule sched ts p).2
      ∧ (runSchedule sched ts p).1.length = ts.length
      ∧ ∀ j, j < ts.length →
          ((runSchedule sched ts p).1.map BeatTask.pc).getD j 0
            = min 4 ((ts.map BeatTask.pc).getD j 0 + sched.count j) := by
  induction sched generalizing ts p with
  | nil =>
    refine ⟨hinv, rfl, ?_⟩
    intro j hj
    have hle : (ts.map BeatTask.pc).getD j 0 ≤ 4 := by
      have hj2 : j < (ts.map BeatTask.pc).length := by simpa using hj
      rw [List.getD_eq_getElem _ _ hj2, List.getElem_map]
      exact (hinv.2.1 _ (List.getElem_mem hj)).1
    simp only [runSchedule, List.count_nil, Nat.add_zero]
    omega
  | cons i rest ih =>
    obtain ⟨h1, h2, h3⟩ := ih (stepAt i ts p).1 (stepAt i ts p).2 (stepAt_invariant i ts p hinv)
    rw [stepAt_length] at h2 h3
    refine ⟨h1, h2, ?_⟩
    intro j hj
    have hall : ∀ t ∈ ts, t.ok ∧ (1 ≤ t.pc →
        (childOf ["heart-service"] p.httpRequestsTotal.children).isSome = true) :=
      fun t ht => ⟨hinv.2.1 t ht, fun hpc => hinv.2.2.1 ⟨t, ht, hpc⟩⟩
    have hstep := stepAt_pc i j ts p hinv.1 hall hj
    have hrun := h3 j hj
    simp only [runSchedule]
    rw [hrun, hstep, List.count_cons]
    by_cases hji : j = i
    · subst hji
      simp only [if_true, beq_self_eq_true]
      omega
    · have hij : ¬ i = j := fun h => hji h.symm
      simp only [hji, if_false, beq_iff_eq, hij]
      omega

/-- The invariant holds when the requests have just been dispatched. -/
theorem beatsInvariant_start (n : Nat) :
    beatsInvariant (List.replicate n (BeatTask.start ResponseWriter.fresh)) Heart.main := by
  refine ⟨rfl, ?_, ?_, ?_⟩
  · intro t ht
    rw [List.eq_of_mem_replicate ht]
    simp [BeatTask.ok, BeatTask.start]
  · rintro ⟨t, ht, hpc⟩
    rw [List.eq_of_mem_replicate ht] at hpc
    simp [BeatTask.start] at hpc
  · have h0 : Heart.main.httpRequestsTotal.value ["heart-service"] = 0 := rfl
    rw [h0]
    symm
    rw [List.countP_eq_zero]
    intro t ht
    rw [List.eq_of_mem_replicate ht]
    simp [BeatTask.start]

/-- C3: when `n` invocations of `beatHandler` run concurrently from the freshly
registered counter, their statements interleaved in any order, no invocation
panics and the counter for `service=heart-service` is at every moment the number
of invocations that have completed their `Inc`; every schedule that lets each
invocation take its four statements ends with all of them returned; and once
all have returned the counter is exactly `n` and every response is 200 with body
`lub-dub` (so 100 concurrent requests give exactly 100).  An invocation that runs
its four steps alone is `beatHandler`. -/
theorem concurrent_beats_count (n : Nat) (sched : List Nat) :
    (concurrentBeats n sched).1.length = n
      ∧ (∀ t ∈ (concurrentBeats n sched).1, t.pc ≤ 4)
      ∧ (concurrentBeats n sched).2.httpRequestsTotal.value ["heart-service"]
          = (concurrentBeats n sched).1.countP (fun t => decide (2 ≤ t.pc))
      ∧ ((∀ i, i < n → 4 ≤ sched.count i) →
          ∀ t ∈ (concurrentBeats n sched).1, t.pc = 4)
      ∧ ((∀ t ∈ (concurrentBeats n sched).1, t.pc = 4) →
          (concurrentBeats n sched).2.httpRequestsTotal.value ["heart-service"] = n
            ∧ ∀ t ∈ (concurrentBeats n sched).1, t.w = ⟨some 200, "lub-dub"⟩)
      ∧ ∀ (w : ResponseWriter) (p : Heart),
          match beatHandler w p with
          | .returned q w2 =>
            ∃ c, runSchedule [0, 0, 0, 0] [BeatTask.start w] p = ([⟨4, c, w2⟩], q)
          | .panicked q w2 =>
            runSchedule [0, 0, 0, 0] [BeatTask.start w] p = ([⟨5, [], w2⟩], q)
          | .hung => False := by
  obtain ⟨hinv, hlen, hpcs⟩ := runSchedule_spec sched
    (List.replicate n (BeatTask.start ResponseWriter.fresh)) Heart.main (beatsInvariant_start n)
  rw [List.length_replicate] at hlen hpcs
  have hrun : concurrentBeats n sched
      = runSchedule sched (List.replicate n (BeatTask.start ResponseWriter.fresh)) Heart.main :=
    rfl
  rw [← hrun] at hinv hlen hpcs
  obtain ⟨_, hall, _, hval⟩ := hinv
  refine ⟨hlen, fun t ht => (hall t ht).1, hval, ?_, ?_, ?_⟩
  · intro hfair t ht
    obtain ⟨j, hj, hjt⟩ := List.getElem_of_mem ht
    have hjn : j < n := by rw [← hlen]; exact hj
    have h := hpcs j hjn
    have hj2 : j < ((concurrentBeats n sched).1.map BeatTask.pc).length := by simpa using hj
    have hj3 : j < ((List.replicate n (BeatTask.start ResponseWriter.fresh)).map
        BeatTask.pc).length := by simpa using hjn
    rw [List.getD_eq_getElem _ _ hj2, List.getD_eq_getElem _ _ hj3, List.getElem_map,
      List.getElem_map, List.getElem_replicate, hjt] at h
    have hc := hfair j hjn
    have h0 : (BeatTask.start ResponseWriter.fresh).pc = 0 := rfl
    rw [h0] at h
    omega
  · intro hdone
    constructor
    · have hcount : (concurrentBeats n sched).1.countP (fun t => decide (2 ≤ t.pc))
          = (concurrentBeats n sched).1.length := by
        rw [List.countP_eq_length]
        intro t ht
        simp [hdone t ht]
      rw [hval, hcount, hlen]
    · intro t ht
      have hw := (hall t ht).2.2
      rw [hw, hdone t ht]
      rfl
  · intro w p
    unfold beatHandler
    cases h : p.httpRequestsTotal.With [("service", "heart-service")] with
    | none => simp [runSchedule, stepAt, beatStep, BeatTask.start, h]
    | some cv =>
      obtain ⟨child, vec⟩ := cv
      simp [runSchedule, stepAt, beatStep, BeatTask.start, h]

/-- Witness for C3: three concurrent requests whose statements are interleaved;
each takes its four steps, and the counter ends at 3. -/
theorem concurrent_beats_count_witness :
    (∀ i, i < 3 → 4 ≤ List.count i [0, 1, 2, 2, 1, 0, 0, 1, 2, 2, 1, 0])
      ∧ (∀ t ∈ (concurrentBeats 3 [0, 1, 2, 2, 1, 0, 0, 1, 2, 2, 1, 0]).1, t.pc = 4)
      ∧ (concurrentBeats 3 [0, 1, 2, 2, 1, 0, 0, 1, 2, 2, 1, 0]).2.httpRequestsTotal.value
          ["heart-service"] = 3 :=
  have hfair : ∀ i, i < 3 → 4 ≤ List.count i [0, 1, 2, 2, 1, 0, 0, 1, 2, 2, 1, 0] := by
    decide
  have h := concurrent_beats_count 3 [0, 1, 2, 2, 1, 0, 0, 1, 2, 2, 1, 0]
  ⟨hfair, h.2.2.2.1 hfair, (h.2.2.2.2.1 (h.2.2.2.1 hfair)).1⟩

end K8sAnatomy
